import Mathlib

/-!
# Verification of the VoiceActivityBot subscription and debounce engine

Shallow embedding of the Go sources (`bot/bot.go`, `persistence.go`) of the
VoiceActivityBot repository: the subscription index, the per-key debounce
state machine, the voice-state-update event router, the
unsubscribe-without-channel command policy, the debounce-interval
configuration logic of `NewBot`, and `Persistence.Load`.

The Go map `map[string][]subscription` is modelled as an association list
`List (String × List Subscription)`; map assignment replaces the (unique)
entry for the key in place, and `delete` removes it.  All reachable states
have pairwise distinct keys, which the well-formedness predicate `WF`
records together with the per-key invariants maintained by the code.
-/

set_option autoImplicit false

/-- The `subscription` struct from `bot/bot.go`: `(voiceChannelId, textChannelId, guildId)`. -/
structure Subscription where
  voiceChannelId : String
  textChannelId : String
  guildId : String
deriving DecidableEq, Repr

/-- The in-memory subscription index `map[string][]subscription`, keyed by
voice channel id. -/
abbrev SubIndex : Type := List (String × List Subscription)

/-- Go map read `m[k]` distinguishing a present entry from an absent key
(`nil` slice): returns the value of the first entry with key `k`. -/
def lookupIdx : SubIndex → String → Option (List Subscription)
  | [], _ => none
  | (k', v') :: rest, k => if k' = k then some v' else lookupIdx rest k

/-- Go map write `m[k] = v`: replaces the first entry with key `k` in place,
or appends a new entry when the key is absent. -/
def setIdx : SubIndex → String → List Subscription → SubIndex
  | [], k, v => [(k, v)]
  | (k', v') :: rest, k, v =>
    if k' = k then (k, v) :: rest else (k', v') :: setIdx rest k v

/-- Go map `delete(m, k)`: removes the first entry with key `k`. -/
def delIdx : SubIndex → String → SubIndex
  | [], _ => []
  | (k', v') :: rest, k => if k' = k then rest else (k', v') :: delIdx rest k

/-- Reading `b.subscriptions[v]` as done by `sendNotifications` and the handlers: an
absent key reads as the empty (nil) slice. -/
def listBySource (m : SubIndex) (v : String) : List Subscription :=
  (lookupIdx m v).getD []

/-- The duplicate test of `addSubscription`/`removeSubscription`:
`sub.textChannelId == textChannelID && sub.voiceChannelId == voiceChannelID`. -/
def subMatches (voiceChannelID textChannelID : String) (sub : Subscription) : Bool :=
  sub.textChannelId == textChannelID && sub.voiceChannelId == voiceChannelID

/-- Translation of `addSubscription` from `bot/bot.go`.  Returns the updated index and
whether the subscription already existed.  The Go code first replaces a nil
slice by an empty one; since that branch is always followed either by an
append (no duplicate) or can only be skipped when the key already held a
non-empty slice (duplicate found), the net effect is as below. -/
def addSubscription (m : SubIndex) (voiceChannelID textChannelID guildID : String) :
    SubIndex × Bool :=
  let subs := listBySource m voiceChannelID
  if subs.any (subMatches voiceChannelID textChannelID) then
    (m, true)
  else
    (setIdx m voiceChannelID
      (subs ++ [⟨voiceChannelID, textChannelID, guildID⟩]), false)

/-- The splice loop of `removeSubscription`: find the first matching entry
and remove it (`append(subs[:idx], subs[idx+1:]...)`); `none` when no entry
matches. -/
def removeFirst (voiceChannelID textChannelID : String) :
    List Subscription → Option (List Subscription)
  | [] => none
  | sub :: rest =>
    if subMatches voiceChannelID textChannelID sub then
      some rest
    else
      match removeFirst voiceChannelID textChannelID rest with
      | some rest' => some (sub :: rest')
      | none => none

/-- Translation of `removeSubscription` from `bot/bot.go`.  Returns the updated index and
whether a matching subscription existed.  The Go code writes the spliced
slice back and then deletes the key if the slice became empty. -/
def removeSubscription (m : SubIndex) (voiceChannelID textChannelID : String) :
    SubIndex × Bool :=
  match lookupIdx m voiceChannelID with
  | none => (m, false)
  | some subs =>
    match removeFirst voiceChannelID textChannelID subs with
    | none => (m, false)
    | some subs' =>
      let m' := setIdx m voiceChannelID subs'
      if subs' = [] then (delIdx m' voiceChannelID, true) else (m', true)

/-- One mutation of the subscription index (a subscribe or unsubscribe
command reaching the engine). -/
inductive Op where
  | add (voiceChannelID textChannelID guildID : String)
  | remove (voiceChannelID textChannelID : String)
deriving DecidableEq, Repr

/-- Apply one mutation to the index, discarding the reported flag. -/
def applyOp (m : SubIndex) : Op → SubIndex
  | .add v t g => (addSubscription m v t g).1
  | .remove v t => (removeSubscription m v t).1

/-- Run a sequence of mutations from a given index state. -/
def runOps (m : SubIndex) (ops : List Op) : SubIndex :=
  ops.foldl applyOp m

/-- Well-formedness of an index state, maintained by the code from the empty
index: keys are pairwise distinct, every subscription is stored under its own
voice channel id, and no two subscriptions under one key share a text
channel. -/
def WF (m : SubIndex) : Prop :=
  (m.map Prod.fst).Nodup ∧
  ∀ p ∈ m, (∀ sub ∈ p.2, sub.voiceChannelId = p.1) ∧
    (p.2.map Subscription.textChannelId).Nodup

instance : DecidablePred WF := by
  intro m
  unfold WF
  infer_instance

/-! ## Debounce timer registry (`debounceNotification`)

Discrete-time model of the per-key debounce state machine.  The state of one
key is `Option (Nat × String)`: `none` when no debouncer is pending for the
key, `some (d, msg)` when a timer with deadline `d` is pending and `msg` is
the stored message.  `debounceNotification` at time `t` overwrites the
stored message, stops any pending timer, and starts a fresh timer with
deadline `t + interval`; when a timer's deadline is reached before the next
event, it fires: it emits the stored message and deletes the key.  A timer
whose deadline coincides exactly with the next event is the race the code
documents as best-effort; the model lets the timer fire in that case
(`d ≤ t`).  Events are given as a list of `(time, message)` pairs in
nondecreasing time order; the run returns the emissions `(time, message)`
and the final per-key state (always `none`: the last pending timer
eventually fires uncontested and the firing callback deletes the key). -/

/-- Run the debouncer of a single key over a time-ordered event list,
returning all emissions and the final state of the key. -/
def debRun (interval : Nat) (st : Option (Nat × String)) :
    List (Nat × String) → List (Nat × String) × Option (Nat × String)
  | [] =>
    match st with
    | some (d, msg) => ([(d, msg)], none)
    | none => ([], none)
  | (t, msg) :: rest =>
    match st with
    | some (d, m0) =>
      if d ≤ t then
        let out := debRun interval (some (t + interval, msg)) rest
        ((d, m0) :: out.1, out.2)
      else
        debRun interval (some (t + interval, msg)) rest
    | none => debRun interval (some (t + interval, msg)) rest

/-! ## Event router (`voiceStateUpdate`) -/

/-- The member data `voiceStateUpdate` reads after resolving the member. -/
structure Member where
  username : String
  nick : String
  isBot : Bool
deriving DecidableEq, Repr

/-- Display name selection in `voiceStateUpdate`: the per-guild nickname
when non-empty, otherwise the global username. -/
def displayName (mem : Member) : String :=
  if mem.nick ≠ "" then mem.nick else mem.username

/-- Channel-name rendering: `s.Channel(id)` succeeds and yields a name, or
fails and the raw id is used. -/
def channelNameOf (resolve : String → Option String) (id : String) : String :=
  (resolve id).getD id

/-- The debouncer map key built by `debounceNotification`:
`fmt.Sprintf("%s:%s", userID, channelID)`. -/
def debounceKey (userID channelID : String) : String :=
  userID ++ ":" ++ channelID

/-- Rendered "joined" message of `voiceStateUpdate`. -/
def joinedMessage (resolve : String → Option String) (mem : Member) (channelID : String) :
    String :=
  "🔊 **" ++ displayName mem ++ "** joined **" ++ channelNameOf resolve channelID ++ "**"

/-- Rendered "left" message of `voiceStateUpdate`. -/
def leftMessage (resolve : String → Option String) (mem : Member) (channelID : String) :
    String :=
  "🔇 **" ++ displayName mem ++ "** left **" ++ channelNameOf resolve channelID ++ "**"

/-- The sequence of `debounceNotification` calls `voiceStateUpdate` makes for
one event, as `(debouncer key, source channel id, message)` triples.
`beforeUpdate` is `none` when `vsu.BeforeUpdate == nil`, otherwise
`some oldChannelID`; `channelID` is `vsu.ChannelID` (empty when the user is
in no channel). -/
def voiceStateUpdateCalls (resolve : String → Option String) (mem : Member)
    (userID : String) (beforeUpdate : Option String) (channelID : String) :
    List (String × String × String) :=
  if mem.isBot then []
  else
    match beforeUpdate with
    | none =>
      if channelID ≠ "" then
        [(debounceKey userID channelID, channelID, joinedMessage resolve mem channelID)]
      else []
    | some oldChannelID =>
      if oldChannelID ≠ "" ∧ channelID = "" then
        [(debounceKey userID oldChannelID, oldChannelID,
          leftMessage resolve mem oldChannelID)]
      else if oldChannelID ≠ channelID ∧ channelID ≠ "" then
        (if oldChannelID ≠ "" then
          [(debounceKey userID oldChannelID, oldChannelID,
            leftMessage resolve mem oldChannelID)]
        else []) ++
        [(debounceKey userID channelID, channelID, joinedMessage resolve mem channelID)]
      else []

/-! ## Unsubscribe-without-channel policy (`handleUnsubscribeWithoutChannel`) -/

/-- The response of the unsubscribe-without-channel handler, abstracting the
Discord interaction payloads. -/
inductive UnsubResponse where
  /-- Response "No active subscriptions in this channel". -/
  | nothingToRemove
  /-- Single match: the subscription for this voice channel was removed. -/
  | removed (voiceChannelID : String)
  /-- Several matches: selection dialog listing the candidate channels. -/
  | dialog (voiceChannelIDs : List String)
deriving DecidableEq, Repr

/-- The per-entry test of the matching loop: some subscription of the entry
has this text channel and guild. -/
def entryMatches (textChannelID guildID : String) (p : String × List Subscription) : Bool :=
  p.2.any fun sub => sub.textChannelId == textChannelID && sub.guildId == guildID

/-- The `matchingVoiceChannels` loop of `handleUnsubscribeWithoutChannel`:
all voice channel ids holding a subscription with this text channel and
guild (each key contributes at most once, via the inner `break`). -/
def matchingVoiceChannels (m : SubIndex) (textChannelID guildID : String) : List String :=
  (m.filter (entryMatches textChannelID guildID)).map Prod.fst

/-- Translation of `handleUnsubscribeWithoutChannel` from `bot/bot.go`: zero matches report
nothing to remove, a single match is removed automatically, several matches
open a selection dialog and leave the index unchanged. -/
def handleUnsubscribeWithoutChannel (m : SubIndex) (textChannelID guildID : String) :
    SubIndex × UnsubResponse :=
  match matchingVoiceChannels m textChannelID guildID with
  | [] => (m, .nothingToRemove)
  | [v] => ((removeSubscription m v textChannelID).1, .removed v)
  | vs => (m, .dialog vs)

/-! ## Debounce-interval configuration (`NewBot`) -/

/-- Value of `3 * time.Second` in nanoseconds, the default debounce interval. -/
def defaultDebounceInterval : Int := 3000000000

/-- The debounce-interval selection in `NewBot`: `envInterval` is the value
of `os.Getenv("DEBOUNCE_INTERVAL")` (empty when unset) and `parseDuration`
models `time.ParseDuration` (`none` on a parse error, otherwise the
duration in nanoseconds; Go's parser accepts signed durations, so a
successful parse may be zero or negative). -/
def newBotDebounceInterval (envInterval : String) (parseDuration : String → Option Int) :
    Int :=
  if envInterval ≠ "" then
    match parseDuration envInterval with
    | some duration => duration
    | none => defaultDebounceInterval
  else defaultDebounceInterval

/-! ## Persistence (`Persistence.Load`) -/

/-- The `PersistentData` struct from `persistence.go`. -/
structure PersistentData where
  subscriptions : List (String × List Subscription)
  adminChannels : List (String × String)
deriving DecidableEq, Repr

/-- The empty data `Load` pre-allocates: empty subscriptions and admin
channel maps. -/
def emptyPersistentData : PersistentData := ⟨[], []⟩

/-- Outcome of `os.ReadFile` on the persistence file. -/
inductive ReadResult where
  /-- The file does not exist (`os.IsNotExist`). -/
  | notExist
  /-- Reading failed with some other error. -/
  | otherError
  /-- Reading succeeded with these contents. -/
  | content (s : String)
deriving DecidableEq, Repr

/-- Translation of `Persistence.Load` from `persistence.go`, parameterised by the outcome
of `os.ReadFile` and by `json.Unmarshal` (`none` on a decode error): a
missing file yields the empty data with no error; a read error or a decode
error is returned to the caller. -/
def Persistence.Load (read : ReadResult) (unmarshal : String → Option PersistentData) :
    Except Unit PersistentData :=
  match read with
  | .notExist => .ok emptyPersistentData
  | .otherError => .error ()
  | .content s =>
    match unmarshal s with
    | some data => .ok data
    | none => .error ()

/-! ## Association-list map lemmas -/

theorem lookupIdx_setIdx_self (m : SubIndex) (k : String) (v : List Subscription) :
    lookupIdx (setIdx m k v) k = some v := by
  induction m with
  | nil => simp [setIdx, lookupIdx]
  | cons p rest ih =>
    obtain ⟨k', v'⟩ := p
    by_cases h : k' = k
    · simp [setIdx, h, lookupIdx]
    · simp [setIdx, h, lookupIdx, ih]

theorem lookupIdx_setIdx_ne (m : SubIndex) (k k' : String) (v : List Subscription)
    (h : k' ≠ k) : lookupIdx (setIdx m k v) k' = lookupIdx m k' := by
  induction m with
  | nil => simp [setIdx, lookupIdx, Ne.symm h]
  | cons p rest ih =>
    obtain ⟨k₀, v₀⟩ := p
    by_cases hk : k₀ = k
    · subst hk
      simp [setIdx, lookupIdx, Ne.symm h]
    · simp [setIdx, hk, lookupIdx, ih]

theorem lookupIdx_delIdx_ne (m : SubIndex) (k k' : String) (h : k' ≠ k) :
    lookupIdx (delIdx m k) k' = lookupIdx m k' := by
  induction m with
  | nil => simp [delIdx]
  | cons p rest ih =>
    obtain ⟨k₀, v₀⟩ := p
    by_cases hk : k₀ = k
    · subst hk
      simp [delIdx, lookupIdx, Ne.symm h]
    · simp [delIdx, hk, lookupIdx, ih]

theorem delIdx_sublist (m : SubIndex) (k : String) : List.Sublist (delIdx m k) m := by
  induction m with
  | nil => simp [delIdx]
  | cons p rest ih =>
    obtain ⟨k₀, v₀⟩ := p
    by_cases hk : k₀ = k
    · simp only [delIdx, if_pos hk]
      exact List.Sublist.cons (k₀, v₀) (List.Sublist.refl rest)
    · simpa [delIdx, hk] using ih.cons₂ (k₀, v₀)

theorem lookupIdx_eq_none_of_not_mem (m : SubIndex) (k : String)
    (h : k ∉ m.map Prod.fst) : lookupIdx m k = none := by
  induction m with
  | nil => simp [lookupIdx]
  | cons p rest ih =>
    obtain ⟨k₀, v₀⟩ := p
    simp only [List.map_cons, List.mem_cons, not_or] at h
    simp [lookupIdx, Ne.symm h.1, ih h.2]

theorem lookupIdx_delIdx_self (m : SubIndex) (k : String)
    (h : (m.map Prod.fst).Nodup) : lookupIdx (delIdx m k) k = none := by
  induction m with
  | nil => simp [delIdx, lookupIdx]
  | cons p rest ih =>
    obtain ⟨k₀, v₀⟩ := p
    simp only [List.map_cons, List.nodup_cons] at h
    by_cases hk : k₀ = k
    · subst hk
      simp only [delIdx, if_pos rfl]
      exact lookupIdx_eq_none_of_not_mem rest k₀ h.1
    · simp [delIdx, hk, lookupIdx, ih h.2]

theorem mem_setIdx (m : SubIndex) (k : String) (v : List Subscription)
    (p : String × List Subscription) (h : p ∈ setIdx m k v) : p = (k, v) ∨ p ∈ m := by
  induction m with
  | nil =>
    simp only [setIdx, List.mem_singleton] at h
    exact .inl h
  | cons q rest ih =>
    obtain ⟨k₀, v₀⟩ := q
    by_cases hk : k₀ = k
    · simp only [setIdx, if_pos hk, List.mem_cons] at h
      rcases h with h | h
      · exact .inl h
      · exact .inr (List.mem_cons_of_mem _ h)
    · simp only [setIdx, if_neg hk, List.mem_cons] at h
      rcases h with h | h
      · exact .inr (h ▸ List.mem_cons_self _ _)
      · rcases ih h with h' | h'
        · exact .inl h'
        · exact .inr (List.mem_cons_of_mem _ h')

theorem mem_delIdx (m : SubIndex) (k : String) (p : String × List Subscription)
    (h : p ∈ delIdx m k) : p ∈ m :=
  (delIdx_sublist m k).mem h

theorem keys_setIdx (m : SubIndex) (k : String) (v : List Subscription) :
    (setIdx m k v).map Prod.fst =
      if k ∈ m.map Prod.fst then m.map Prod.fst else m.map Prod.fst ++ [k] := by
  induction m with
  | nil => simp [setIdx]
  | cons p rest ih =>
    obtain ⟨k₀, v₀⟩ := p
    by_cases hk : k₀ = k
    · simp [setIdx, hk]
    · by_cases hmem : k ∈ rest.map Prod.fst
      · simp [setIdx, hk, hmem, ih, Ne.symm hk]
      · simp [setIdx, hk, hmem, ih, Ne.symm hk]

theorem keys_setIdx_nodup (m : SubIndex) (k : String) (v : List Subscription)
    (h : (m.map Prod.fst).Nodup) : ((setIdx m k v).map Prod.fst).Nodup := by
  rw [keys_setIdx]
  by_cases hmem : k ∈ m.map Prod.fst
  · simpa [hmem] using h
  · simp [hmem, List.nodup_append, h]

theorem keys_delIdx_nodup (m : SubIndex) (k : String)
    (h : (m.map Prod.fst).Nodup) : ((delIdx m k).map Prod.fst).Nodup :=
  List.Nodup.sublist ((delIdx_sublist m k).map Prod.fst) h

theorem mem_of_lookupIdx_eq_some (m : SubIndex) (k : String) (l : List Subscription)
    (h : lookupIdx m k = some l) : (k, l) ∈ m := by
  induction m with
  | nil => simp [lookupIdx] at h
  | cons p rest ih =>
    obtain ⟨k₀, v₀⟩ := p
    by_cases hk : k₀ = k
    · subst hk
      simp only [lookupIdx, reduceIte, Option.some.injEq] at h
      subst h
      exact List.mem_cons_self _ _
    · simp only [lookupIdx, if_neg hk] at h
      exact List.mem_cons_of_mem _ (ih h)

theorem lookupIdx_eq_some_of_mem (m : SubIndex) (k : String) (l : List Subscription)
    (hnd : (m.map Prod.fst).Nodup) (h : (k, l) ∈ m) : lookupIdx m k = some l := by
  induction m with
  | nil => simp at h
  | cons p rest ih =>
    obtain ⟨k₀, v₀⟩ := p
    simp only [List.map_cons, List.nodup_cons] at hnd
    rcases List.mem_cons.mp h with h' | h'
    · obtain ⟨hk, hv⟩ := Prod.mk.injEq .. ▸ h'.symm
      simp [lookupIdx, hk.symm, hv]
    · have hk : k₀ ≠ k := by
        rintro rfl
        exact hnd.1 (List.mem_map_of_mem Prod.fst h')
      simp [lookupIdx, hk, ih hnd.2 h']

theorem delIdx_setIdx (m : SubIndex) (k : String) (v : List Subscription) :
    delIdx (setIdx m k v) k = delIdx m k := by
  induction m with
  | nil => simp [setIdx, delIdx]
  | cons p rest ih =>
    obtain ⟨k₀, v₀⟩ := p
    by_cases hk : k₀ = k
    · simp [setIdx, delIdx, hk]
    · simp [setIdx, delIdx, hk, ih]

/-! ## `removeFirst` lemmas -/

theorem removeFirst_eq_none_iff (v t : String) (l : List Subscription) :
    removeFirst v t l = none ↔ ∀ sub ∈ l, ¬ subMatches v t sub := by
  induction l with
  | nil => simp [removeFirst]
  | cons x rest ih =>
    by_cases hx : subMatches v t x
    · simp [removeFirst, hx]
    · cases hrf : removeFirst v t rest with
      | some rest' =>
        simp only [removeFirst, if_neg hx, hrf]
        simp only [hrf, false_iff, reduceCtorEq] at ih ⊢
        push_neg at ih
        obtain ⟨sub, hsub, hmatch⟩ := ih
        intro hall
        exact hall sub (List.mem_cons_of_mem _ hsub) hmatch
      | none =>
        simp only [removeFirst, if_neg hx, hrf]
        simp only [hrf, true_iff] at ih
        simp only [true_iff]
        intro sub hsub
        rcases List.mem_cons.mp hsub with h | h
        · exact h ▸ hx
        · exact ih sub h

theorem removeFirst_of_decomp (v t : String) (pre post : List Subscription)
    (x : Subscription) (hx : subMatches v t x) (hpre : ∀ y ∈ pre, ¬ subMatches v t y) :
    removeFirst v t (pre ++ x :: post) = some (pre ++ post) := by
  induction pre with
  | nil => simp [removeFirst, hx]
  | cons y ys ih =>
    have hy : ¬ subMatches v t y := hpre y (List.mem_cons_self _ _)
    have ih' := ih fun z hz => hpre z (List.mem_cons_of_mem _ hz)
    simp [removeFirst, hy, ih']

theorem removeFirst_decomp (v t : String) (l l' : List Subscription)
    (h : removeFirst v t l = some l') :
    ∃ pre x post, l = pre ++ x :: post ∧ subMatches v t x ∧
      (∀ y ∈ pre, ¬ subMatches v t y) ∧ l' = pre ++ post := by
  induction l generalizing l' with
  | nil => simp [removeFirst] at h
  | cons x rest ih =>
    by_cases hx : subMatches v t x
    · simp only [removeFirst, if_pos hx, Option.some.injEq] at h
      exact ⟨[], x, rest, by simp, hx, by simp, h.symm⟩
    · simp only [removeFirst, if_neg hx] at h
      cases hrf : removeFirst v t rest with
      | none => simp [hrf] at h
      | some rest' =>
        simp only [hrf, Option.some.injEq] at h
        obtain ⟨pre, z, post, hdec, hz, hpre, hrest'⟩ := ih rest' hrf
        refine ⟨x :: pre, z, post, by simp [hdec], hz, ?_, by simp [← h, hrest']⟩
        intro y hy
        rcases List.mem_cons.mp hy with h' | h'
        · exact h' ▸ hx
        · exact hpre y h'

theorem removeFirst_isSome (v t : String) (l : List Subscription) (sub : Subscription)
    (hmem : sub ∈ l) (hmatch : subMatches v t sub) :
    ∃ l', removeFirst v t l = some l' := by
  induction l with
  | nil => simp at hmem
  | cons x rest ih =>
    by_cases hx : subMatches v t x
    · exact ⟨rest, by simp [removeFirst, hx]⟩
    · have hsub : sub ∈ rest := by
        rcases List.mem_cons.mp hmem with h | h
        · exact absurd (h ▸ hmatch) hx
        · exact h
      obtain ⟨l', hl'⟩ := ih hsub
      exact ⟨x :: l', by simp [removeFirst, hx, hl']⟩

/-! ## Operation-level lemmas -/

/-- Unfolding of `addSubscription` when a duplicate is present. -/
theorem addSubscription_dup (m : SubIndex) (v t g : String)
    (h : (listBySource m v).any (subMatches v t)) :
    addSubscription m v t g = (m, true) := by
  simp [addSubscription, h]

/-- After any `addSubscription v t g`, the list at `v` holds a matching
subscription. -/
theorem addSubscription_mem (m : SubIndex) (v t g : String) :
    ∃ sub ∈ listBySource (addSubscription m v t g).1 v, subMatches v t sub := by
  by_cases h : (listBySource m v).any (subMatches v t)
  · rw [addSubscription_dup m v t g h]
    obtain ⟨sub, hsub, hmatch⟩ := List.any_eq_true.mp h
    exact ⟨sub, hsub, hmatch⟩
  · have : addSubscription m v t g =
        (setIdx m v (listBySource m v ++ [⟨v, t, g⟩]), false) := by
      simp [addSubscription, h]
    rw [this]
    refine ⟨⟨v, t, g⟩, ?_, by simp [subMatches]⟩
    simp [listBySource, lookupIdx_setIdx_self]

/-- A subscription stored anywhere in a well-formed index with voice channel
`s` and text channel `t` appears in `listBySource s` and matches. -/
theorem mem_listBySource_of_mem (m : SubIndex) (s t : String) (hWF : WF m)
    (h : ∃ p ∈ m, ∃ sub ∈ p.2, sub.voiceChannelId = s ∧ sub.textChannelId = t) :
    ∃ sub ∈ listBySource m s, subMatches s t sub := by
  obtain ⟨p, hp, sub, hsub, hvoice, htext⟩ := h
  have hkey : p.1 = s := (hWF.2 p hp).1 sub hsub ▸ hvoice
  have hlook : lookupIdx m s = some p.2 := by
    refine lookupIdx_eq_some_of_mem m s p.2 hWF.1 ?_
    rw [← hkey]
    exact hp
  refine ⟨sub, by simp [listBySource, hlook, hsub], ?_⟩
  simp [subMatches, hvoice, htext]

theorem removeFirst_sublist (v t : String) (l l' : List Subscription)
    (h : removeFirst v t l = some l') : List.Sublist l' l := by
  obtain ⟨pre, x, post, hldec, hx, hpre, hl'⟩ := removeFirst_decomp v t l l' h
  rw [hldec, hl']
  exact List.Sublist.append_left (List.Sublist.cons x (List.Sublist.refl post)) pre

/-- The invariants of `WF` restricted to the list a source key holds. -/
theorem listBySource_props (m : SubIndex) (v : String) (h : WF m) :
    (∀ sub ∈ listBySource m v, sub.voiceChannelId = v) ∧
    ((listBySource m v).map Subscription.textChannelId).Nodup := by
  cases hlk : lookupIdx m v with
  | none => simp [listBySource, hlk]
  | some l =>
    have := h.2 (v, l) (mem_of_lookupIdx_eq_some m v l hlk)
    simpa [listBySource, hlk] using this

/-- Operation `addSubscription` preserves well-formedness. -/
theorem WF_addSubscription (m : SubIndex) (v t g : String) (h : WF m) :
    WF (addSubscription m v t g).1 := by
  by_cases hdup : (listBySource m v).any (subMatches v t)
  · rw [addSubscription_dup m v t g hdup]
    exact h
  · have heq : (addSubscription m v t g).1 =
        setIdx m v (listBySource m v ++ [⟨v, t, g⟩]) := by
      simp [addSubscription, hdup]
    have hprops := listBySource_props m v h
    have htnin : t ∉ (listBySource m v).map Subscription.textChannelId := by
      intro hmem
      obtain ⟨sub, hsub, htext⟩ := List.mem_map.mp hmem
      exact hdup (List.any_eq_true.mpr
        ⟨sub, hsub, by simp [subMatches, htext, hprops.1 sub hsub]⟩)
    rw [heq]
    refine ⟨keys_setIdx_nodup m v _ h.1, ?_⟩
    intro p hp
    rcases mem_setIdx m v _ p hp with hpe | hpm
    · subst hpe
      refine ⟨?_, ?_⟩
      · intro sub hsub
        rcases List.mem_append.mp hsub with h' | h'
        · exact hprops.1 sub h'
        · simp only [List.mem_singleton] at h'
          subst h'
          rfl
      · simp only [List.map_append, List.map_cons, List.map_nil]
        simp [List.nodup_append, hprops.2, htnin]
    · exact h.2 p hpm

/-- Case analysis for `removeSubscription`: either nothing matched and the
index is unchanged, or the first match was spliced out (deleting the key
when the list became empty). -/
theorem removeSubscription_eq (m : SubIndex) (v t : String) :
    (removeSubscription m v t = (m, false) ∧
      ∀ sub ∈ listBySource m v, ¬ subMatches v t sub) ∨
    (∃ l l', lookupIdx m v = some l ∧ removeFirst v t l = some l' ∧
      ((l' = [] ∧ removeSubscription m v t = (delIdx m v, true)) ∨
       (l' ≠ [] ∧ removeSubscription m v t = (setIdx m v l', true)))) := by
  cases hlk : lookupIdx m v with
  | none =>
    refine .inl ⟨by simp [removeSubscription, hlk], ?_⟩
    simp [listBySource, hlk]
  | some l =>
    cases hrf : removeFirst v t l with
    | none =>
      refine .inl ⟨by simp [removeSubscription, hlk, hrf], ?_⟩
      intro sub hsub
      exact (removeFirst_eq_none_iff v t l).mp hrf sub
        (by simpa [listBySource, hlk] using hsub)
    | some l' =>
      refine .inr ⟨l, l', rfl, hrf, ?_⟩
      by_cases hemp : l' = []
      · refine .inl ⟨hemp, ?_⟩
        simp only [removeSubscription, hlk, hrf, if_pos hemp]
        rw [delIdx_setIdx]
      · exact .inr ⟨hemp, by simp [removeSubscription, hlk, hrf, hemp]⟩

/-- Operation `removeSubscription` preserves well-formedness. -/
theorem WF_removeSubscription (m : SubIndex) (v t : String) (h : WF m) :
    WF (removeSubscription m v t).1 := by
  rcases removeSubscription_eq m v t with ⟨heq, _⟩ | ⟨l, l', hlk, hrf, hcase⟩
  · rw [heq]
    exact h
  · have hl : (v, l) ∈ m := mem_of_lookupIdx_eq_some m v l hlk
    have hlprops := h.2 (v, l) hl
    have hsub : List.Sublist l' l := removeFirst_sublist v t l l' hrf
    rcases hcase with ⟨_, heq⟩ | ⟨_, heq⟩
    · rw [heq]
      refine ⟨keys_delIdx_nodup m v h.1, ?_⟩
      intro p hp
      exact h.2 p (mem_delIdx m v p hp)
    · rw [heq]
      refine ⟨keys_setIdx_nodup m v l' h.1, ?_⟩
      intro p hp
      rcases mem_setIdx m v l' p hp with hpe | hpm
      · subst hpe
        refine ⟨fun sub hs => hlprops.1 sub (hsub.mem hs), ?_⟩
        exact List.Nodup.sublist (hsub.map Subscription.textChannelId) hlprops.2
      · exact h.2 p hpm

/-- No entry of the index ever holds the empty list. -/
def NE (m : SubIndex) : Prop := ∀ p ∈ m, p.2 ≠ []

theorem NE_addSubscription (m : SubIndex) (v t g : String) (h : NE m) :
    NE (addSubscription m v t g).1 := by
  by_cases hdup : (listBySource m v).any (subMatches v t)
  · rw [addSubscription_dup m v t g hdup]
    exact h
  · have heq : (addSubscription m v t g).1 =
        setIdx m v (listBySource m v ++ [⟨v, t, g⟩]) := by
      simp [addSubscription, hdup]
    rw [heq]
    intro p hp
    rcases mem_setIdx m v _ p hp with hpe | hpm
    · subst hpe
      simp
    · exact h p hpm

theorem NE_removeSubscription (m : SubIndex) (v t : String) (h : NE m) :
    NE (removeSubscription m v t).1 := by
  rcases removeSubscription_eq m v t with ⟨heq, _⟩ | ⟨l, l', hlk, hrf, hcase⟩
  · rw [heq]
    exact h
  · rcases hcase with ⟨_, heq⟩ | ⟨hne, heq⟩
    · rw [heq]
      intro p hp
      exact h p (mem_delIdx m v p hp)
    · rw [heq]
      intro p hp
      rcases mem_setIdx m v l' p hp with hpe | hpm
      · subst hpe
        exact hne
      · exact h p hpm

theorem NE_runOps (ops : List Op) (m : SubIndex) (h : NE m) : NE (runOps m ops) := by
  induction ops generalizing m with
  | nil => exact h
  | cons op rest ih =>
    cases op with
    | add v t g => exact ih _ (NE_addSubscription m v t g h)
    | remove v t => exact ih _ (NE_removeSubscription m v t h)

theorem WF_runOps (ops : List Op) (m : SubIndex) (h : WF m) : WF (runOps m ops) := by
  induction ops generalizing m with
  | nil => exact h
  | cons op rest ih =>
    cases op with
    | add v t g => exact ih _ (WF_addSubscription m v t g h)
    | remove v t => exact ih _ (WF_removeSubscription m v t h)

/-- In a well-formed index, removing `(v, t)` when a matching subscription
exists succeeds and leaves no subscription with text channel `t` under `v`. -/
theorem remove_clears_target (m : SubIndex) (v t : String) (hWF : WF m)
    (h : ∃ sub ∈ listBySource m v, subMatches v t sub) :
    (removeSubscription m v t).2 = true ∧
    ∀ sub ∈ listBySource (removeSubscription m v t).1 v, sub.textChannelId ≠ t := by
  obtain ⟨sub0, hsub0, hmatch0⟩ := h
  cases hlk : lookupIdx m v with
  | none => simp [listBySource, hlk] at hsub0
  | some l =>
    have hsub0' : sub0 ∈ l := by simpa [listBySource, hlk] using hsub0
    obtain ⟨l', hrf⟩ := removeFirst_isSome v t l sub0 hsub0' hmatch0
    obtain ⟨pre, x, post, hldec, hx, hpre, hl'⟩ := removeFirst_decomp v t l l' hrf
    have hnd : (l.map Subscription.textChannelId).Nodup :=
      (hWF.2 (v, l) (mem_of_lookupIdx_eq_some m v l hlk)).2
    have hxt : x.textChannelId = t := by
      simp only [subMatches, Bool.and_eq_true, beq_iff_eq] at hx
      exact hx.1
    have hnot : ∀ sub ∈ l', sub.textChannelId ≠ t := by
      rw [hldec, List.map_append, List.map_cons, hxt, List.nodup_append,
        List.nodup_cons] at hnd
      intro sub hs
      rw [hl'] at hs
      rcases List.mem_append.mp hs with h' | h'
      · intro ht
        exact hnd.2.2 (ht ▸ List.mem_map_of_mem Subscription.textChannelId h')
          (List.mem_cons_self _ _)
      · intro ht
        exact hnd.2.1.1 (ht ▸ List.mem_map_of_mem Subscription.textChannelId h')
    by_cases hemp : l' = []
    · have heq : removeSubscription m v t = (delIdx m v, true) := by
        simp only [removeSubscription, hlk, hrf, if_pos hemp]
        rw [delIdx_setIdx]
      rw [heq]
      refine ⟨rfl, ?_⟩
      simp [listBySource, lookupIdx_delIdx_self m v hWF.1]
    · have heq : removeSubscription m v t = (setIdx m v l', true) := by
        simp [removeSubscription, hlk, hrf, hemp]
      rw [heq]
      refine ⟨rfl, ?_⟩
      intro sub hs
      exact hnot sub (by simpa [listBySource, lookupIdx_setIdx_self] using hs)

/-! ## Claim theorems -/

/-- C1: subscription add is idempotent.  In every well-formed index state
that already holds a subscription with source `s` and target `t`, a further
`add(s, t, g)` reports `alreadyExisted = true` and leaves the index exactly
unchanged; in particular this holds for the state produced by any
`add(s, t, g)`. -/
theorem add_idempotent :
    (∀ (m : SubIndex) (s t g : String), WF m →
      (∃ p ∈ m, ∃ sub ∈ p.2, sub.voiceChannelId = s ∧ sub.textChannelId = t) →
      addSubscription m s t g = (m, true)) ∧
    (∀ (m : SubIndex) (s t g : String),
      addSubscription (addSubscription m s t g).1 s t g =
        ((addSubscription m s t g).1, true)) := by
  constructor
  · intro m s t g hWF h
    obtain ⟨sub, hsub, hmatch⟩ := mem_listBySource_of_mem m s t hWF h
    exact addSubscription_dup m s t g (List.any_eq_true.mpr ⟨sub, hsub, hmatch⟩)
  · intro m s t g
    obtain ⟨sub, hsub, hmatch⟩ := addSubscription_mem m s t g
    exact addSubscription_dup _ s t g (List.any_eq_true.mpr ⟨sub, hsub, hmatch⟩)

theorem add_idempotent_witness :
    addSubscription [("v", [⟨"v", "t", "g"⟩])] "v" "t" "g2" =
      ([("v", [⟨"v", "t", "g"⟩])], true) :=
  add_idempotent.1 [("v", [⟨"v", "t", "g"⟩])] "v" "t" "g2" (by decide) (by decide)

/-- C2: after `add(s, t, g)` followed by `remove(s, t)` on a well-formed
index, the removal reports `existed = true`, the list for `s` no longer
contains target `t`, and when that subscription was the only one for `s`,
the key `s` is absent from the index entirely. -/
theorem add_remove_roundtrip (m : SubIndex) (s t g : String) (hWF : WF m) :
    (removeSubscription (addSubscription m s t g).1 s t).2 = true ∧
    (∀ sub ∈ listBySource (removeSubscription (addSubscription m s t g).1 s t).1 s,
      sub.textChannelId ≠ t) ∧
    ((listBySource (addSubscription m s t g).1 s).length = 1 →
      lookupIdx (removeSubscription (addSubscription m s t g).1 s t).1 s = none) := by
  have hWF1 := WF_addSubscription m s t g hWF
  have hmem := addSubscription_mem m s t g
  have hclear := remove_clears_target _ s t hWF1 hmem
  refine ⟨hclear.1, hclear.2, ?_⟩
  intro hlen
  obtain ⟨sub, hsub, hmatch⟩ := hmem
  cases hlk : lookupIdx (addSubscription m s t g).1 s with
  | none =>
    rw [listBySource, hlk] at hsub
    simp at hsub
  | some l =>
    have hl : listBySource (addSubscription m s t g).1 s = l := by
      simp [listBySource, hlk]
    rw [hl] at hlen hsub
    obtain ⟨x, hx⟩ := List.length_eq_one.mp hlen
    rw [hx] at hsub
    have hxs : sub = x := by simpa using hsub
    have hrf : removeFirst s t l = some [] := by
      rw [hx]
      simp [removeFirst, hxs ▸ hmatch]
    have heq : removeSubscription (addSubscription m s t g).1 s t =
        (delIdx (addSubscription m s t g).1 s, true) := by
      simp only [removeSubscription, hlk, hrf, delIdx_setIdx]
      simp
    rw [heq]
    exact lookupIdx_delIdx_self _ s hWF1.1

theorem add_remove_roundtrip_witness :
    (removeSubscription (addSubscription [] "v" "t" "g").1 "v" "t").2 = true ∧
    lookupIdx (removeSubscription (addSubscription [] "v" "t" "g").1 "v" "t").1 "v" =
      none :=
  ⟨(add_remove_roundtrip [] "v" "t" "g" (by decide)).1,
   (add_remove_roundtrip [] "v" "t" "g" (by decide)).2.2 (by decide)⟩

/-- C3: in every index state reachable from the empty index by `add` and
`remove` operations, every present key maps to a non-empty subscription
list. -/
theorem no_empty_entry_reachable (ops : List Op) :
    ∀ p ∈ runOps [] ops, p.2 ≠ [] :=
  NE_runOps ops [] (by intro p hp; simp at hp)

theorem no_empty_entry_reachable_witness :
    [(⟨"v", "t", "g"⟩ : Subscription)] ≠ [] :=
  no_empty_entry_reachable [Op.add "v" "t" "g"] ("v", [⟨"v", "t", "g"⟩]) (by decide)

/-- C9: the duplicate check of `addSubscription` ignores the guild: if a
well-formed index holds a subscription `(s, t, g1)`, then `add(s, t, g2)`
for any `g2` reports `alreadyExisted = true`, changes nothing, and the
stored guild id remains `g1`. -/
theorem add_ignores_guild (m : SubIndex) (s t g1 g2 : String) (hWF : WF m)
    (h : ∃ p ∈ m, ∃ sub ∈ p.2,
      sub.voiceChannelId = s ∧ sub.textChannelId = t ∧ sub.guildId = g1) :
    addSubscription m s t g2 = (m, true) ∧
    ∃ sub ∈ listBySource (addSubscription m s t g2).1 s,
      sub.textChannelId = t ∧ sub.guildId = g1 := by
  obtain ⟨p, hp, sub, hsub, hv, ht, hg⟩ := h
  have hkey : p.1 = s := (hWF.2 p hp).1 sub hsub ▸ hv
  have hlook : lookupIdx m s = some p.2 := by
    refine lookupIdx_eq_some_of_mem m s p.2 hWF.1 ?_
    rw [← hkey]
    exact hp
  have hsubl : sub ∈ listBySource m s := by simp [listBySource, hlook, hsub]
  have hdup : (listBySource m s).any (subMatches s t) :=
    List.any_eq_true.mpr ⟨sub, hsubl, by simp [subMatches, hv, ht]⟩
  have hadd := addSubscription_dup m s t g2 hdup
  rw [hadd]
  exact ⟨rfl, sub, hsubl, ht, hg⟩

/-- C10: `removeSubscription(s, t)` removes at most one subscription — the
first entry of `s`'s list whose target is `t` — preserving the order of the
remaining entries under `s` and leaving every other source key unchanged. -/
theorem remove_first_match_only (m : SubIndex) (s t : String) (hWF : WF m) :
    (∀ k, k ≠ s → lookupIdx (removeSubscription m s t).1 k = lookupIdx m k) ∧
    (lookupIdx m s = none → (removeSubscription m s t).1 = m) ∧
    (∀ l, lookupIdx m s = some l →
      (removeFirst s t l = none → (removeSubscription m s t).1 = m) ∧
      (∀ pre x post, l = pre ++ x :: post → subMatches s t x →
        (∀ y ∈ pre, ¬ subMatches s t y) →
        listBySource (removeSubscription m s t).1 s = pre ++ post)) := by
  refine ⟨?_, ?_, ?_⟩
  · intro k hk
    rcases removeSubscription_eq m s t with ⟨heq, _⟩ | ⟨l, l', hlk, hrf, hcase⟩
    · rw [heq]
    · rcases hcase with ⟨_, heq⟩ | ⟨_, heq⟩
      · rw [heq]
        exact lookupIdx_delIdx_ne m s k hk
      · rw [heq]
        exact lookupIdx_setIdx_ne m s k l' hk
  · intro hlk
    simp [removeSubscription, hlk]
  · intro l hlk
    constructor
    · intro hrf
      simp [removeSubscription, hlk, hrf]
    · intro pre x post hdec hx hpre
      have hrf : removeFirst s t l = some (pre ++ post) := by
        rw [hdec]
        exact removeFirst_of_decomp s t pre post x hx hpre
      by_cases hemp : pre ++ post = []
      · have heq : removeSubscription m s t = (delIdx m s, true) := by
          simp only [removeSubscription, hlk, hrf, delIdx_setIdx]
          simp [hemp]
        rw [heq, hemp]
        simp [listBySource, lookupIdx_delIdx_self m s hWF.1]
      · have heq : removeSubscription m s t = (setIdx m s (pre ++ post), true) := by
          simp [removeSubscription, hlk, hrf, hemp]
        rw [heq]
        simp [listBySource, lookupIdx_setIdx_self]

theorem remove_first_match_only_witness :
    lookupIdx (removeSubscription
        [("s", [⟨"s", "t", "g"⟩, ⟨"s", "t2", "g"⟩]), ("w", [⟨"w", "t", "g"⟩])]
        "s" "t").1 "w" =
      lookupIdx [("s", [⟨"s", "t", "g"⟩, ⟨"s", "t2", "g"⟩]), ("w", [⟨"w", "t", "g"⟩])]
        "w" ∧
    listBySource (removeSubscription
        [("s", [⟨"s", "t", "g"⟩, ⟨"s", "t2", "g"⟩]), ("w", [⟨"w", "t", "g"⟩])]
        "s" "t").1 "s" = [⟨"s", "t2", "g"⟩] :=
  ⟨(remove_first_match_only
      [("s", [⟨"s", "t", "g"⟩, ⟨"s", "t2", "g"⟩]), ("w", [⟨"w", "t", "g"⟩])]
      "s" "t" (by decide)).1 "w" (by decide),
   ((remove_first_match_only
      [("s", [⟨"s", "t", "g"⟩, ⟨"s", "t2", "g"⟩]), ("w", [⟨"w", "t", "g"⟩])]
      "s" "t" (by decide)).2.2 [⟨"s", "t", "g"⟩, ⟨"s", "t2", "g"⟩] (by decide)).2
      [] ⟨"s", "t", "g"⟩ [⟨"s", "t2", "g"⟩] rfl (by decide) (by decide)⟩

/-- C5: the unsubscribe-without-source policy.  With zero matching sources
the handler reports nothing to remove and leaves the index unchanged; with
exactly one it removes that subscription automatically; with two or more it
returns a disambiguation dialog and leaves the index unchanged. -/
theorem unsubscribe_without_source_policy (m : SubIndex) (t g : String) (hWF : WF m) :
    (matchingVoiceChannels m t g = [] →
      handleUnsubscribeWithoutChannel m t g = (m, .nothingToRemove)) ∧
    (∀ v, matchingVoiceChannels m t g = [v] →
      handleUnsubscribeWithoutChannel m t g =
        ((removeSubscription m v t).1, .removed v) ∧
      (removeSubscription m v t).2 = true ∧
      ∀ sub ∈ listBySource (removeSubscription m v t).1 v, sub.textChannelId ≠ t) ∧
    (∀ v v' vs, matchingVoiceChannels m t g = v :: v' :: vs →
      handleUnsubscribeWithoutChannel m t g = (m, .dialog (v :: v' :: vs))) := by
  refine ⟨?_, ?_, ?_⟩
  · intro h
    simp [handleUnsubscribeWithoutChannel, h]
  · intro v h
    refine ⟨by simp [handleUnsubscribeWithoutChannel, h], ?_⟩
    obtain ⟨e, hf, hrest⟩ : ∃ e, m.filter (entryMatches t g) = [e] ∧ e.1 = v := by
      cases hf : m.filter (entryMatches t g) with
      | nil =>
        rw [matchingVoiceChannels, hf] at h
        simp at h
      | cons e rest =>
        rw [matchingVoiceChannels, hf] at h
        simp only [List.map_cons, List.cons.injEq, List.map_eq_nil_iff] at h
        exact ⟨e, by rw [h.2], h.1⟩
    have hefil : e ∈ m.filter (entryMatches t g) := by
      rw [hf]
      exact List.mem_singleton_self e
    obtain ⟨hem, hentry⟩ := List.mem_filter.mp hefil
    obtain ⟨sub, hsub, hmatch'⟩ := List.any_eq_true.mp hentry
    simp only [Bool.and_eq_true, beq_iff_eq] at hmatch'
    have hvoice : sub.voiceChannelId = v := hrest ▸ (hWF.2 e hem).1 sub hsub
    have hlook : lookupIdx m v = some e.2 := by
      refine lookupIdx_eq_some_of_mem m v e.2 hWF.1 ?_
      rw [← hrest]
      exact hem
    apply remove_clears_target m v t hWF
    exact ⟨sub, by simp [listBySource, hlook, hsub],
      by simp [subMatches, hmatch'.1, hvoice]⟩
  · intro v v' vs h
    simp [handleUnsubscribeWithoutChannel, h]

theorem unsubscribe_without_source_policy_witness :
    handleUnsubscribeWithoutChannel [("v", [⟨"v", "t", "g"⟩])] "t2" "g" =
      ([("v", [⟨"v", "t", "g"⟩])], .nothingToRemove) ∧
    handleUnsubscribeWithoutChannel [("v", [⟨"v", "t", "g"⟩])] "t" "g" =
      ((removeSubscription [("v", [⟨"v", "t", "g"⟩])] "v" "t").1, .removed "v") ∧
    handleUnsubscribeWithoutChannel
        [("v", [⟨"v", "t", "g"⟩]), ("w", [⟨"w", "t", "g"⟩])] "t" "g" =
      ([("v", [⟨"v", "t", "g"⟩]), ("w", [⟨"w", "t", "g"⟩])], .dialog ["v", "w"]) :=
  ⟨(unsubscribe_without_source_policy [("v", [⟨"v", "t", "g"⟩])] "t2" "g"
      (by decide)).1 (by decide),
   ((unsubscribe_without_source_policy [("v", [⟨"v", "t", "g"⟩])] "t" "g"
      (by decide)).2.1 "v" (by decide)).1,
   (unsubscribe_without_source_policy
      [("v", [⟨"v", "t", "g"⟩]), ("w", [⟨"w", "t", "g"⟩])] "t" "g"
      (by decide)).2.2 "v" "w" [] (by decide)⟩

theorem add_ignores_guild_witness :
    addSubscription [("v", [⟨"v", "t", "gOne"⟩])] "v" "t" "gTwo" =
      ([("v", [⟨"v", "t", "gOne"⟩])], true) ∧
    ∃ sub ∈ listBySource
        (addSubscription [("v", [⟨"v", "t", "gOne"⟩])] "v" "t" "gTwo").1 "v",
      sub.textChannelId = "t" ∧ sub.guildId = "gOne" :=
  add_ignores_guild [("v", [⟨"v", "t", "gOne"⟩])] "v" "t" "gOne" "gTwo"
    (by decide) (by decide)

/-- C4: debounce coalescing with latest-message-wins.  With quiet interval
`I`, an event carrying `m1` at time `0` followed by an event carrying `m2`
at time `I / 2` and nothing further produces exactly one emission, at time
`I / 2 + I` (≈ 1.5 × I), carrying `m2`, and the key's debouncer is gone
afterwards (final state `none`); moreover any event arriving while a timer
is pending discards the old message and deadline entirely, restarting the
timer for the full interval. -/
theorem debounce_coalescing (interval : Nat) (m1 m2 : String) (hI : 0 < interval) :
    debRun interval none [(0, m1), (interval / 2, m2)] =
      ([(interval / 2 + interval, m2)], none) ∧
    ∀ (d : Nat) (msg0 : String) (t : Nat) (msg : String) (rest : List (Nat × String)),
      t < d →
      debRun interval (some (d, msg0)) ((t, msg) :: rest) =
        debRun interval none ((t, msg) :: rest) := by
  constructor
  · have hlt : interval / 2 < interval := Nat.div_lt_self hI (by norm_num)
    have hnot : ¬ (interval ≤ interval / 2) := Nat.not_le.mpr hlt
    simp [debRun, hnot]
  · intro d msg0 t msg rest hlt
    have hnot : ¬ (d ≤ t) := Nat.not_le.mpr hlt
    simp [debRun, hnot]

theorem debounce_coalescing_witness :
    debRun 6 none [(0, "m1"), (3, "m2")] = ([(9, "m2")], none) :=
  (debounce_coalescing 6 "m1" "m2" (by decide)).1

/-- The debouncer keys of two different channels for the same user differ. -/
theorem debounceKey_inj (u a b : String) (h : debounceKey u a = debounceKey u b) :
    a = b := by
  have hd : ∀ (s s' : String), (s ++ s').data = s.data ++ s'.data := fun s s' => rfl
  have h' : (u ++ ":").data ++ a.data = (u ++ ":").data ++ b.data := by
    have := congrArg String.data h
    rwa [debounceKey, debounceKey, hd, hd] at this
  have h2 : a.data = b.data := List.append_cancel_left h'
  cases a
  cases b
  exact congrArg String.mk h2

/-- C6: move classification.  A non-bot presence event moving from `A` to
`B` (both non-empty, distinct) produces exactly two debounce calls: a
"left" message keyed at `(actor, A)` and a "joined" message keyed at
`(actor, B)`, with distinct debouncer keys. -/
theorem move_classification (resolve : String → Option String) (mem : Member)
    (userID A B : String) (hbot : mem.isBot = false) (hA : A ≠ "") (hB : B ≠ "")
    (hAB : A ≠ B) :
    voiceStateUpdateCalls resolve mem userID (some A) B =
      [(debounceKey userID A, A, leftMessage resolve mem A),
       (debounceKey userID B, B, joinedMessage resolve mem B)] ∧
    debounceKey userID A ≠ debounceKey userID B := by
  constructor
  · simp [voiceStateUpdateCalls, hbot, hA, hB, hAB]
  · intro hkey
    exact hAB (debounceKey_inj userID A B hkey)

theorem move_classification_witness :
    voiceStateUpdateCalls (fun _ => none) ⟨"user", "nick", false⟩ "uid"
        (some "A") "B" =
      [(debounceKey "uid" "A", "A",
        leftMessage (fun _ => none) ⟨"user", "nick", false⟩ "A"),
       (debounceKey "uid" "B", "B",
        joinedMessage (fun _ => none) ⟨"user", "nick", false⟩ "B")] ∧
    debounceKey "uid" "A" ≠ debounceKey "uid" "B" :=
  move_classification (fun _ => none) ⟨"user", "nick", false⟩ "uid" "A" "B"
    rfl (by decide) (by decide) (by decide)

/-- C7 counterexample: the claim "no zero or negative interval is ever
adopted" fails.  `NewBot` falls back to the default only when
`time.ParseDuration` errors; Go's `time.ParseDuration("-5s")` succeeds and
returns −5 s, which the code adopts unchanged. -/
theorem debounce_interval_negative_adopted :
    newBotDebounceInterval "-5s"
        (fun s => if s = "-5s" then some (-5000000000) else none) = -5000000000 ∧
    ¬ (0 < newBotDebounceInterval "-5s"
        (fun s => if s = "-5s" then some (-5000000000) else none)) := by
  constructor
  · decide
  · decide

/-- C7 (amended): an unparseable `DEBOUNCE_INTERVAL` (and an unset one)
falls back to the default of 3 seconds, which is strictly positive, and
startup never fails; but whenever parsing succeeds the parsed value is
adopted as-is, so a successfully parsed zero or negative duration is not
rejected. -/
theorem debounce_interval_fallback (envInterval : String)
    (parseDuration : String → Option Int) :
    (parseDuration envInterval = none →
      newBotDebounceInterval envInterval parseDuration = defaultDebounceInterval) ∧
    (envInterval = "" →
      newBotDebounceInterval envInterval parseDuration = defaultDebounceInterval) ∧
    (∀ d, envInterval ≠ "" → parseDuration envInterval = some d →
      newBotDebounceInterval envInterval parseDuration = d) ∧
    0 < defaultDebounceInterval := by
  refine ⟨?_, ?_, ?_, by decide⟩
  · intro h
    by_cases he : envInterval = ""
    · simp [newBotDebounceInterval, he]
    · simp [newBotDebounceInterval, he, h]
  · intro h
    simp [newBotDebounceInterval, h]
  · intro d he h
    simp [newBotDebounceInterval, he, h]

theorem debounce_interval_fallback_witness :
    newBotDebounceInterval "garbage" (fun _ => none) = defaultDebounceInterval ∧
    newBotDebounceInterval "5s"
        (fun s => if s = "5s" then some 5000000000 else none) = 5000000000 :=
  ⟨(debounce_interval_fallback "garbage" (fun _ => none)).1 rfl,
   (debounce_interval_fallback "5s"
      (fun s => if s = "5s" then some 5000000000 else none)).2.2.1 5000000000
      (by decide) (by decide)⟩

/-- C8 counterexample: the claim "any failed load yields empty initial
state rather than propagating an error" fails on `Persistence.Load`: when
the file is read but `json.Unmarshal` fails, `Load` returns `(nil, err)` —
an error, not empty state. -/
theorem load_propagates_decode_error :
    Persistence.Load (ReadResult.content "not json") (fun _ => none) =
      Except.error () ∧
    Persistence.Load (ReadResult.content "not json") (fun _ => none) ≠
      Except.ok emptyPersistentData := by
  refine ⟨rfl, ?_⟩
  intro h
  exact Except.noConfusion h

/-- C8 (amended): a missing persistence file yields empty initial state
(empty subscriptions and admin-channels maps) with no error; a read error
other than not-exists, or an unmarshal failure, makes `Load` return an
error to its caller (and a successful unmarshal returns the decoded
data). -/
theorem load_missing_file_yields_empty (unmarshal : String → Option PersistentData) :
    Persistence.Load ReadResult.notExist unmarshal = Except.ok emptyPersistentData ∧
    Persistence.Load ReadResult.otherError unmarshal = Except.error () ∧
    (∀ s, unmarshal s = none →
      Persistence.Load (ReadResult.content s) unmarshal = Except.error ()) ∧
    (∀ s d, unmarshal s = some d →
      Persistence.Load (ReadResult.content s) unmarshal = Except.ok d) := by
  refine ⟨rfl, rfl, ?_, ?_⟩
  · intro s h
    simp [Persistence.Load, h]
  · intro s d h
    simp [Persistence.Load, h]

theorem load_missing_file_yields_empty_witness :
    Persistence.Load ReadResult.notExist (fun _ => none) =
      Except.ok emptyPersistentData ∧
    Persistence.Load (ReadResult.content "x") (fun _ => none) = Except.error () :=
  ⟨(load_missing_file_yields_empty (fun _ => none)).1,
   (load_missing_file_yields_empty (fun _ => none)).2.2.1 "x" rfl⟩
